import Mathlib

/-!
Verification of the line classification and brace-nesting validator of the
Java syntax checker IDE (`src/AFD.py`).

The core under scrutiny is `JavaSyntaxHighlighter._validate_text` together
with its two pieces of mutable state (`current_block_level`,
`class_parsing_state`) and the whole-buffer scan `JavaSyntaxCheckerIDE.runCode`.
Lines are modelled as `List Char`; the Python regular expressions are
transcribed into a small Brzozowski-derivative regex engine whose patterns
mirror the source character for character.  Python's `re` matches are
end-anchored in every pattern used by the source (all patterns terminate in a
dollar anchor), so whole-string matching is the faithful semantics.  Character
classes are modelled over the ASCII range, which covers every line the
program's own scenarios exercise; input lines are the results of splitting the
document on newline characters, so they contain no newline.
-/

namespace AFD

/-! ### Character classes of Python `re` (ASCII range) -/

/-- Python whitespace class backslash-s restricted to ASCII. -/
def pySpace (c : Char) : Bool :=
  c = ' ' || c = '\t' || c = '\n' || c = '\r' || c = '\x0b' || c = '\x0c'

/-- Python word class backslash-w restricted to ASCII: letters, digits, underscore. -/
def pyWord (c : Char) : Bool :=
  c.isAlphanum || c = '_'

/-- Character class of the source's `[a-zA-Z_]`. -/
def pyAlphaUnd (c : Char) : Bool :=
  c.isAlpha || c = '_'

/-! ### A small regex engine (Brzozowski derivatives, whole-string match) -/

/-- Regular expressions over `Char`, with arbitrary single-character classes. -/
inductive RE where
  | fail : RE
  | eps : RE
  | cls (p : Char → Bool) : RE
  | alt (a b : RE) : RE
  | cat (a b : RE) : RE
  | star (a : RE) : RE

/-- Does the regex accept the empty string? -/
def nullable : RE → Bool
  | .fail => false
  | .eps => true
  | .cls _ => false
  | .alt a b => nullable a || nullable b
  | .cat a b => nullable a && nullable b
  | .star _ => true

/-- Smart concatenation: absorbs `fail`, drops `eps`. -/
def scat : RE → RE → RE
  | .fail, _ => .fail
  | .eps, b => b
  | _, .fail => .fail
  | a, .eps => a
  | a, b => RE.cat a b

/-- Smart alternation: drops `fail`. -/
def salt : RE → RE → RE
  | .fail, b => b
  | a, .fail => a
  | a, b => .alt a b

/-- Brzozowski derivative with respect to one character. -/
def deriv : RE → Char → RE
  | .fail, _ => .fail
  | .eps, _ => .fail
  | .cls p, c => if p c then .eps else .fail
  | .alt a b, c => salt (deriv a c) (deriv b c)
  | .cat a b, c =>
      if nullable a then salt (scat (deriv a c) b) (deriv b c)
      else scat (deriv a c) b
  | .star a, c => scat (deriv a c) (.star a)

/-- Whole-string match. -/
def rmatch (r : RE) (s : List Char) : Bool :=
  nullable (s.foldl deriv r)

/-- Single literal character. -/
def rchr (c : Char) : RE := .cls (fun d => d = c)

/-- Literal string. -/
def rstr (s : String) : RE :=
  s.toList.foldr (fun c r => .cat (rchr c) r) .eps

/-- Optional piece, regex question mark. -/
def ropt (r : RE) : RE := .alt .eps r

/-- One or more repetitions, regex plus. -/
def rplus (r : RE) : RE := .cat r (.star r)

/-- Concatenation of a list of pieces. -/
def rcats (l : List RE) : RE := l.foldr RE.cat RE.eps

/-- Zero or more whitespace characters. -/
def sp0 : RE := .star (.cls pySpace)

/-- One or more whitespace characters. -/
def sp1 : RE := rplus (.cls pySpace)

/-- One or more word characters. -/
def w1 : RE := rplus (.cls pyWord)

/-- Zero or more word characters. -/
def w0 : RE := .star (.cls pyWord)

/-! ### The classifier's patterns, transcribed from `src/AFD.py` lines 75-88 -/

/-- Optional visibility modifier group of the source patterns. -/
def visibility : RE :=
  ropt (.alt (rstr "public") (.alt (rstr "private") (rstr "protected")))

/-- Source `class_pattern`. -/
def class_pattern : RE :=
  rcats [visibility, sp0, rstr "class", sp1, w1, sp0, ropt (rchr '{')]

/-- Return-type alternatives of the source `method_pattern`. -/
def retType : RE :=
  .alt (rstr "void") (.alt (rstr "int") (.alt (rstr "String") (rstr "boolean")))

/-- Source `method_pattern`. -/
def method_pattern : RE :=
  rcats [visibility, sp0, ropt (rstr "static"), sp0, retType, sp1, w1, sp0,
    rchr '(', .star (.cls (fun c => !(c = ')'))), rchr ')', sp0, ropt (rchr '{')]

/-- Source `main_method_pattern`. -/
def main_method_pattern : RE :=
  rcats [rstr "public", sp1, rstr "static", sp1, rstr "void", sp1, rstr "main",
    sp0, rchr '(', sp0, rstr "String", sp0, rstr "[]", sp0, w1, sp0, rchr ')',
    sp0, ropt (rchr '{')]

/-- First source control pattern: if, while, for headers. -/
def control_pattern1 : RE :=
  rcats [.alt (rstr "if") (.alt (rstr "while") (rstr "for")), sp0,
    rchr '(', sp0, rplus (.cls (fun c => !(c = ')'))), sp0, rchr ')', sp0,
    ropt (rchr '{')]

/-- Second source control pattern: a println statement. -/
def control_pattern2 : RE :=
  rcats [rstr "System.out.println", sp0, rchr '(', sp0,
    .alt (rcats [rchr '"', .star (.cls (fun c => !(c = '"'))), rchr '"']) w1,
    sp0, rstr ");"]

/-- First source variable pattern: typed declaration with optional initializer. -/
def variable_pattern1 : RE :=
  rcats [.alt (rstr "int") (.alt (rstr "String") (.alt (rstr "boolean")
      (.alt (rstr "double") (.alt (rstr "float") (rstr "long"))))),
    sp1, w1, sp0,
    ropt (rcats [rchr '=', sp0, rplus (.cls (fun c => !(c = ';')))]), rchr ';']

/-- Second source variable pattern: assignment to an existing variable. -/
def variable_pattern2 : RE :=
  rcats [.cls pyAlphaUnd, w0, sp0, rchr '=', sp0,
    rplus (.cls (fun c => !(c = ';'))), rchr ';']

/-- Python `any(re.match(p, tc) for p in control_patterns + variable_patterns)`. -/
def anyPat (tc : List Char) : Bool :=
  rmatch control_pattern1 tc || rmatch control_pattern2 tc ||
    rmatch variable_pattern1 tc || rmatch variable_pattern2 tc

/-- The disjunction tested by the final error check of `_validate_text`
(source lines 114-118): class, method, main, then control and variable
patterns. -/
def recognizedPat (tc : List Char) : Bool :=
  rmatch class_pattern tc || rmatch method_pattern tc ||
    rmatch main_method_pattern tc || anyPat tc

/-! ### Comment stripping, source line 68

Python `re.sub` removes, scanning left to right, either a line comment
(two slashes to the end of the line) or a greedy block comment (slash-star up
to the LAST star-slash occurring later in the line).  `lastStarSlash l`
returns the last index `j` such that `l` has a star at `j` and a slash at
`j+1`.  The stripper is written with explicit fuel so that it is structurally
recursive and hence computable by the kernel. -/

/-- Last starting index of a star-slash pair in the list, if any. -/
def lastStarSlash : List Char → Option Nat
  | [] => none
  | c :: rest =>
    match lastStarSlash rest with
    | some j => some (j + 1)
    | none => if c = '*' && rest.head? = some '/' then some 0 else none

/-- Does the list contain a star-slash pair? -/
def containsStarSlash : List Char → Bool
  | [] => false
  | c :: rest => (c = '*' && rest.head? = some '/') || containsStarSlash rest

/-- A star-slash pair occurs at position `p`. -/
def isSS (t : List Char) (p : Nat) : Prop :=
  t.get? p = some '*' ∧ t.get? (p + 1) = some '/'

/-- Fuelled comment stripper; `stripComments` supplies fuel equal to the
length of the line, which is sufficient since every step consumes at least
one character. -/
def stripCommentsAux : Nat → List Char → List Char
  | _, [] => []
  | 0, l => l
  | _ + 1, [c] => [c]
  | n + 1, c1 :: c2 :: rest =>
    if c1 = '/' && c2 = '/' then []
    else if c1 = '/' && c2 = '*' then
      match lastStarSlash rest with
      | some j => stripCommentsAux n (rest.drop (j + 2))
      | none => c1 :: stripCommentsAux n (c2 :: rest)
    else c1 :: stripCommentsAux n (c2 :: rest)

/-- Source line 68, the `re.sub` that removes comment text. -/
def stripComments (l : List Char) : List Char :=
  stripCommentsAux l.length l

/-- Python `str.strip`: drop whitespace from both ends. -/
def pstrip (l : List Char) : List Char :=
  ((l.dropWhile pySpace).reverse.dropWhile pySpace).reverse

/-- The `text_clean` computed at the top of `_validate_text`. -/
def cleanOf (text : List Char) : List Char :=
  pstrip (stripComments text)

/-! ### The validator state and `_validate_text` -/

/-- Mutable state of `JavaSyntaxHighlighter`: the brace-nesting counter and
the class-header flag. -/
structure VState where
  current_block_level : Int
  class_parsing_state : Bool
deriving Repr, DecidableEq

/-- The fixed suggestion string returned with every error. -/
def expectedMsg : List Char := "Expected a valid Java statement".toList

/-- Shallow embedding of `JavaSyntaxHighlighter._validate_text`
(source lines 66-122).  The Python method mutates `self` and returns the pair
`(error_range, correct_option)`; here the updated state is returned
alongside that pair. -/
def validateText (st : VState) (text : List Char) :
    VState × (Option (Nat × Nat) × Option (List Char)) :=
  if cleanOf text = [] then (st, (none, none))
  else if cleanOf text = ['\x7b'] then
    ({ st with current_block_level := st.current_block_level + 1 }, (none, none))
  else if cleanOf text = ['\x7d'] then
    ({ st with current_block_level := max 0 (st.current_block_level - 1) },
      (none, none))
  else if rmatch class_pattern (cleanOf text) then
    ({ st with class_parsing_state := true }, (none, none))
  else if rmatch main_method_pattern (cleanOf text) ||
      rmatch method_pattern (cleanOf text) then (st, (none, none))
  else if 0 < st.current_block_level ∧ anyPat (cleanOf text) = true then
    (st, (none, none))
  else if recognizedPat (cleanOf text) = false then
    (st, (some (0, text.length), some expectedMsg))
  else (st, (none, none))

/-! ### The buffer scan, `JavaSyntaxCheckerIDE.runCode` (source lines 328-346) -/

/-- Python `text.split` on the newline character: always returns at least one
piece, and pieces contain no newline. -/
def splitLines : List Char → List (List Char)
  | [] => [[]]
  | c :: rest =>
    if c = '\n' then [] :: splitLines rest
    else
      match splitLines rest with
      | l :: ls => (c :: l) :: ls
      | [] => [[c]]

/-- Join a list of lines with newline separators; inverse of `splitLines`. -/
def joinLines : List (List Char) → List Char
  | [] => []
  | [l] => l
  | l :: l2 :: ls => l ++ '\n' :: joinLines (l2 :: ls)

/-- One reported problem of the buffer scan: the 1-based line number, the
original line text, and the suggestion when one was returned. -/
structure Diagnostic where
  lineNumber : Nat
  lineText : List Char
  suggestion : Option (List Char)
deriving Repr, DecidableEq

/-- The loop body of `runCode`: classify each line in order, threading the
highlighter state, and collect a diagnostic for every line whose
`error_range` is present.  The counter `i` is the number of lines already
consumed, so the reported line number is `i + 1`. -/
def runCodeLoop (st : VState) (i : Nat) : List (List Char) → VState × List Diagnostic
  | [] => (st, [])
  | line :: rest =>
    let r := validateText st line
    let rec_ := runCodeLoop r.1 (i + 1) rest
    match r.2.1 with
    | some _ => (rec_.1, ⟨i + 1, line, r.2.2⟩ :: rec_.2)
    | none => (rec_.1, rec_.2)

/-- Shallow embedding of `JavaSyntaxCheckerIDE.runCode`: split the buffer on
newlines and classify every line in increasing order, starting from the
highlighter state `st`. -/
def runCode (st : VState) (text : List Char) : VState × List Diagnostic :=
  runCodeLoop st 0 (splitLines text)

/-- Written from the spec's words for comparison with `runCode`: invoke the
line classifier once per line in increasing line-number order and collect
every invalid result as a diagnostic carrying the 1-based line number, the
original line text, and the suggestion when present.  The classifier's output
is state-independent (see the hyperproperty theorems), so a fixed fresh state
is supplied. -/
def diagOf (p : Nat × List Char) : Option Diagnostic :=
  match (validateText ⟨0, false⟩ p.2).2 with
  | (some _, sug) => some ⟨p.1 + 1, p.2, sug⟩
  | (none, _) => none

/-- Written from the spec's words, continued: the whole-buffer scan as a
filter over the 0-indexed enumeration of the lines. -/
def bufferScanSpec (text : List Char) : List Diagnostic :=
  (splitLines text).enum.filterMap diagOf

/-! ### Blank and comment-only lines

The spec's class of blank or comment-only lines: whitespace, same-line block
comments, and at most one trailing line comment.  `bcAux` scans the line;
`inB` records being inside a block comment, `seen` records that a block
comment has already been closed.  With `strict := false` the trailing line
comment may contain anything (the spec's literal class); with
`strict := true` a line comment that follows a block comment must not
contain a star-slash pair (the class the code actually strips to
emptiness, since the greedy block-comment regex would otherwise swallow up
to the last star-slash and leave a residue). -/

def bcAux (strict : Bool) : Bool → Bool → List Char → Bool
  | inB, _, [] => !inB
  | inB, _, [c] => if inB then false else pySpace c
  | inB, seen, c1 :: c2 :: rest =>
    if inB then
      if c1 = '*' && c2 = '/' then bcAux strict false seen rest
      else bcAux strict true seen (c2 :: rest)
    else
      if c1 = '/' && c2 = '/' then !strict || !seen || !containsStarSlash rest
      else if c1 = '/' && c2 = '*' then bcAux strict true true rest
      else pySpace c1 && bcAux strict false seen (c2 :: rest)

/-- The spec's literal class of blank or comment-only lines. -/
def blankOrComment (l : List Char) : Bool := bcAux false false false l

/-- The amended class: as `blankOrComment`, but a line comment that follows a
completed block comment must not contain a star-slash pair. -/
def blankOrCommentAmended (l : List Char) : Bool := bcAux true false false l

/-- Fold the classifier's state update over a list of lines. -/
def scanState (st : VState) (ls : List (List Char)) : VState :=
  ls.foldl (fun s l => (validateText s l).1) st

/-! ### Characterisation of the classifier's two components -/

/-- The returned pair of `_validate_text` depends only on the cleaned line:
it is the fixed error exactly when the cleaned line is non-empty, is not a
lone brace, and matches none of the source's patterns.  In particular the
nesting-level gate of source lines 109-111 is unobservable in the output,
because the final check of lines 114-119 retests the same patterns without
the gate. -/
theorem validateText_snd (st : VState) (line : List Char) :
    (validateText st line).2 =
      if cleanOf line ≠ [] ∧ cleanOf line ≠ ['\x7b'] ∧ cleanOf line ≠ ['\x7d'] ∧
          recognizedPat (cleanOf line) = false then
        (some (0, line.length), some expectedMsg)
      else (none, none) := by
  unfold validateText
  split_ifs with h1 h2 h3 h4 h5 h6 h7 <;> simp_all [recognizedPat, anyPat]

/-- The state update of `_validate_text`: increment on a lone opening brace,
floored decrement on a lone closing brace, the class flag on a class-header
match, and no change otherwise. -/
theorem validateText_fst (st : VState) (line : List Char) :
    (validateText st line).1 =
      if cleanOf line = ['\x7b'] then
        { st with current_block_level := st.current_block_level + 1 }
      else if cleanOf line = ['\x7d'] then
        { st with current_block_level := max 0 (st.current_block_level - 1) }
      else if cleanOf line ≠ [] ∧ rmatch class_pattern (cleanOf line) = true then
        { st with class_parsing_state := true }
      else st := by
  unfold validateText
  split_ifs with h1 h2 h3 h4 h5 h6 h7 <;> simp_all

/-! ### Claim theorems -/

/-- C1: the claimed nesting gate is absent from the observable behaviour.
The lines `x = 5;` and `System.out.println("Hello");` are classified as
valid both at nesting level 0 and at nesting level 1: the fallback check of
source lines 114-119 retests the control and variable patterns without the
`current_block_level > 0` guard, so the guard of lines 109-111 never affects
the classification result, contradicting the claimed `Invalid` at level 0. -/
theorem c1_nesting_gate_unobservable :
    (validateText ⟨0, false⟩ ("x = 5;".toList)).2 = (none, none) ∧
    (validateText ⟨1, false⟩ ("x = 5;".toList)).2 = (none, none) ∧
    (validateText ⟨0, false⟩ ("System.out.println(\"Hello\");".toList)).2 =
      (none, none) ∧
    (validateText ⟨1, false⟩ ("System.out.println(\"Hello\");".toList)).2 =
      (none, none) := by
  decide

/-- C2: the classification output is independent of the validator state; for
any two states and any line, `_validate_text` returns the same error span and
suggestion. -/
theorem c2_output_state_independent (s t : VState) (line : List Char) :
    (validateText s line).2 = (validateText t line).2 := by
  rw [validateText_snd, validateText_snd]

/-- C9: the classifier is total and yields, for every state and line, either
a valid result or exactly the one error shape, an error span covering the
whole original line together with the fixed suggestion. -/
theorem c9_total_dichotomy (st : VState) (line : List Char) :
    (validateText st line).2 = (none, none) ∨
    (validateText st line).2 = (some (0, line.length), some expectedMsg) := by
  rw [validateText_snd]
  split_ifs <;> simp

/-- C10: classifying the same line twice from equal starting states yields
the same classification result. -/
theorem c10_deterministic (s t : VState) (line : List Char) (h : s = t) :
    validateText s line = validateText t line := by
  rw [h]

/-- Witness for C10 at a concrete state and line. -/
theorem c10_deterministic_witness :
    validateText ⟨0, false⟩ ("x = 5;".toList) =
      validateText ⟨0, false⟩ ("x = 5;".toList) :=
  c10_deterministic ⟨0, false⟩ ⟨0, false⟩ ("x = 5;".toList) rfl

/-- C6: the seven-line scenario from a fresh state: every line classifies as
valid (no diagnostics are collected) and the nesting level returns to 0. -/
theorem c6_whole_program_scenario :
    runCodeLoop ⟨0, false⟩ 0
      ["public class Foo".toList, "\x7b".toList,
        "public static void main(String[] args)".toList, "\x7b".toList,
        "int x = 5;".toList, "\x7d".toList, "\x7d".toList] =
      (⟨0, true⟩, []) := by
  decide

/-- One classification step keeps the nesting level non-negative. -/
theorem step_level_nonneg (st : VState) (line : List Char)
    (h : 0 ≤ st.current_block_level) :
    0 ≤ ((validateText st line).1).current_block_level := by
  rw [validateText_fst]
  split_ifs <;> (try simp) <;> omega

/-- A whole scan from a non-negative level keeps the level non-negative. -/
theorem scanState_level_nonneg (ls : List (List Char)) :
    ∀ st : VState, 0 ≤ st.current_block_level →
      0 ≤ (scanState st ls).current_block_level := by
  induction ls with
  | nil => intro st h; exact h
  | cons l ls ih =>
    intro st h
    exact ih _ (step_level_nonneg st l h)

/-- C3: a line whose comment-stripped trimmed form is a lone opening brace
increments the nesting level by one and is valid; a lone closing brace
decrements it floored at zero and is valid; and from a fresh state the level
is never negative after any sequence of classifications. -/
theorem c3_brace_tracking :
    (∀ (st : VState) (line : List Char), cleanOf line = ['{'] →
        validateText st line =
          ({ st with current_block_level := st.current_block_level + 1 },
            (none, none))) ∧
    (∀ (st : VState) (line : List Char), cleanOf line = ['}'] →
        validateText st line =
          ({ st with current_block_level := max 0 (st.current_block_level - 1) },
            (none, none))) ∧
    (∀ ls : List (List Char), 0 ≤ (scanState ⟨0, false⟩ ls).current_block_level) := by
  refine ⟨?_, ?_, ?_⟩
  · intro st line h
    have e1 := validateText_fst st line
    have e2 := validateText_snd st line
    rw [if_pos h] at e1
    rw [if_neg (fun hc => hc.2.1 h)] at e2
    exact Prod.ext e1 e2
  · intro st line h
    have e1 := validateText_fst st line
    have e2 := validateText_snd st line
    rw [if_neg (by simp [h]), if_pos h] at e1
    rw [if_neg (fun hc => hc.2.2.1 h)] at e2
    exact Prod.ext e1 e2
  · intro ls
    exact scanState_level_nonneg ls ⟨0, false⟩ (by simp)

/-- Witness for C3 at concrete lines: an opening brace with a trailing
comment, and closing braces at levels 2 and 0. -/
theorem c3_brace_tracking_witness :
    validateText ⟨0, false⟩ (" \x7b // open".toList) = (⟨1, false⟩, (none, none)) ∧
    validateText ⟨2, true⟩ ("\x7d".toList) = (⟨1, true⟩, (none, none)) ∧
    validateText ⟨0, false⟩ ("\x7d".toList) = (⟨0, false⟩, (none, none)) :=
  ⟨c3_brace_tracking.1 ⟨0, false⟩ (" \x7b // open".toList) (by decide),
   c3_brace_tracking.2.1 ⟨2, true⟩ ("\x7d".toList) (by decide),
   c3_brace_tracking.2.1 ⟨0, false⟩ ("\x7d".toList) (by decide)⟩

/-- C4: every line whose cleaned form is non-empty, is not a lone brace, and
matches none of the recognised patterns yields the invalid result whose error
span is the whole untrimmed line and whose suggestion is the fixed string;
in particular the eight-character line `int x = ` does so at every state. -/
theorem c4_error_shape :
    (∀ (st : VState) (line : List Char),
        cleanOf line ≠ [] → cleanOf line ≠ ['{'] → cleanOf line ≠ ['}'] →
        recognizedPat (cleanOf line) = false →
        validateText st line = (st, (some (0, line.length), some expectedMsg))) ∧
    (∀ st : VState, validateText st ("int x = ".toList) =
        (st, (some (0, 8), some expectedMsg))) := by
  have key : ∀ (st : VState) (line : List Char),
      cleanOf line ≠ [] → cleanOf line ≠ ['{'] → cleanOf line ≠ ['}'] →
      recognizedPat (cleanOf line) = false →
      validateText st line = (st, (some (0, line.length), some expectedMsg)) := by
    intro st line h1 h2 h3 h4
    have e1 := validateText_fst st line
    have e2 := validateText_snd st line
    have hclass : rmatch class_pattern (cleanOf line) = false := by
      have h5 := h4
      simp [recognizedPat, Bool.or_eq_false_iff] at h5
      tauto
    rw [if_neg h2, if_neg h3, if_neg (by simp [hclass])] at e1
    rw [if_pos ⟨h1, h2, h3, h4⟩] at e2
    exact Prod.ext e1 e2
  refine ⟨key, ?_⟩
  intro st
  have := key st ("int x = ".toList) (by decide) (by decide) (by decide) (by decide)
  simpa using this

/-- Witness for C4 at a concrete state and line. -/
theorem c4_error_shape_witness :
    validateText ⟨7, true⟩ ("foo bar baz".toList) =
      (⟨7, true⟩, (some (0, 11), some expectedMsg)) :=
  c4_error_shape.1 ⟨7, true⟩ ("foo bar baz".toList)
    (by decide) (by decide) (by decide) (by decide)

/-- C7: the class-header line `public class Foo {` is valid, leaves the
nesting level unchanged, and sets the class flag; and once the class flag is
set no classification step ever clears it. -/
theorem c7_class_header :
    validateText ⟨0, false⟩ ("public class Foo \x7b".toList) =
      (⟨0, true⟩, (none, none)) ∧
    (∀ (st : VState) (line : List Char), st.class_parsing_state = true →
      ((validateText st line).1).class_parsing_state = true) := by
  refine ⟨by decide, ?_⟩
  intro st line h
  rw [validateText_fst]
  split_ifs <;> simp [h]

/-- Witness for C7's monotonicity part at a concrete state and line. -/
theorem c7_class_header_witness :
    ((validateText ⟨0, true⟩ ("\x7d".toList)).1).class_parsing_state = true :=
  c7_class_header.2 ⟨0, true⟩ ("\x7d".toList) rfl

/-- Splitting a buffer always yields at least one line. -/
theorem splitLines_ne_nil (text : List Char) : splitLines text ≠ [] := by
  cases text with
  | nil => simp [splitLines]
  | cons c rest =>
    simp only [splitLines]
    split_ifs
    · simp
    · cases h : splitLines rest <;> simp

/-- Prepending a character to the first line commutes with joining. -/
theorem joinLines_cons_head (c : Char) (l : List Char) (ls : List (List Char)) :
    joinLines ((c :: l) :: ls) = c :: joinLines (l :: ls) := by
  cases ls <;> simp [joinLines]

/-- Joining the split lines restores the buffer. -/
theorem joinLines_splitLines (text : List Char) :
    joinLines (splitLines text) = text := by
  induction text with
  | nil => simp [splitLines, joinLines]
  | cons c rest ih =>
    simp only [splitLines]
    split_ifs with h
    · subst h
      obtain ⟨l, ls, hls⟩ : ∃ l ls, splitLines rest = l :: ls := by
        cases hr : splitLines rest with
        | nil => exact absurd hr (splitLines_ne_nil rest)
        | cons l ls => exact ⟨l, ls, rfl⟩
      rw [hls]
      rw [hls] at ih
      simpa [joinLines] using ih
    · obtain ⟨l, ls, hls⟩ : ∃ l ls, splitLines rest = l :: ls := by
        cases hr : splitLines rest with
        | nil => exact absurd hr (splitLines_ne_nil rest)
        | cons l ls => exact ⟨l, ls, rfl⟩
      rw [hls]
      rw [hls] at ih
      rw [joinLines_cons_head, ih]

/-- The diagnostics collected by the `runCode` loop from any starting state
and counter equal the filtered enumeration of the lines from that counter. -/
theorem runCodeLoop_spec (ls : List (List Char)) :
    ∀ (st : VState) (i : Nat),
      (runCodeLoop st i ls).2 = (List.enumFrom i ls).filterMap diagOf := by
  induction ls with
  | nil => intro st i; simp [runCodeLoop, List.enumFrom]
  | cons line rest ih =>
    intro st i
    have h2 : (validateText ⟨0, false⟩ line).2 = (validateText st line).2 := by
      rw [validateText_snd, validateText_snd]
    simp only [runCodeLoop, List.enumFrom, List.filterMap_cons]
    rcases h : (validateText st line).2 with ⟨er, sug⟩
    rw [h] at h2
    cases er with
    | none =>
      simp only [h, diagOf, h2]
      exact ih _ _
    | some sp =>
      simp only [h, diagOf, h2]
      simp only [List.cons.injEq]
      exact ⟨trivial, ih _ _⟩

/-- C8: the whole-buffer scan splits the text on newline boundaries (joining
the split restores the text), classifies each line in increasing order, and
collects every invalid result as a diagnostic with the 1-based line number,
the original line text, and the suggestion; this holds from any starting
highlighter state. -/
theorem c8_buffer_scan :
    (∀ (st : VState) (text : List Char),
        (runCode st text).2 = bufferScanSpec text) ∧
    (∀ text : List Char, joinLines (splitLines text) = text) := by
  constructor
  · intro st text
    rw [runCode, bufferScanSpec, List.enum, runCodeLoop_spec]
  · exact joinLines_splitLines

/-! ### Occurrence theory of star-slash pairs

These lemmas relate `lastStarSlash` and `containsStarSlash` to the
positional predicate `isSS`, in preparation for the comment-only-line
theorems: the greedy block-comment removal jumps to the LAST star-slash
pair, while a left-to-right reading of the line meets the FIRST one. -/

theorem isSS_cons_zero (c : Char) (rest : List Char) :
    isSS (c :: rest) 0 ↔ c = '*' ∧ rest.head? = some '/' := by
  cases rest <;> simp [isSS, List.head?]

theorem isSS_cons_succ (c : Char) (rest : List Char) (p : Nat) :
    isSS (c :: rest) (p + 1) ↔ isSS rest p := by
  simp [isSS]

theorem isSS_drop (t : List Char) (d p : Nat) :
    isSS (t.drop d) p ↔ isSS t (d + p) := by
  simp [isSS, List.get?_drop, Nat.add_assoc]

/-- The index reported by `lastStarSlash` is an occurrence. -/
theorem lastStarSlash_isSS (t : List Char) :
    ∀ j, lastStarSlash t = some j → isSS t j := by
  induction t with
  | nil => intro j h; simp [lastStarSlash] at h
  | cons c rest ih =>
    intro j h
    simp only [lastStarSlash] at h
    cases hr : lastStarSlash rest with
    | some i =>
      rw [hr] at h
      simp only [Option.some.injEq] at h
      subst h
      exact (isSS_cons_succ c rest i).2 (ih i hr)
    | none =>
      rw [hr] at h
      by_cases hc : (c = '*' && rest.head? = some '/') = true
      · rw [if_pos hc] at h
        simp only [Option.some.injEq] at h
        subst h
        rw [isSS_cons_zero]
        simpa using hc
      · rw [if_neg hc] at h
        simp at h

/-- When `lastStarSlash` reports nothing there is no occurrence at all. -/
theorem lastStarSlash_none_forall (t : List Char) :
    lastStarSlash t = none → ∀ p, ¬ isSS t p := by
  induction t with
  | nil => intro _ p; simp [isSS]
  | cons c rest ih =>
    intro h p
    simp only [lastStarSlash] at h
    cases hr : lastStarSlash rest with
    | some i => rw [hr] at h; simp at h
    | none =>
      rw [hr] at h
      by_cases hc : (c = '*' && rest.head? = some '/') = true
      · rw [if_pos hc] at h
        simp at h
      · cases p with
        | zero =>
          rw [isSS_cons_zero]
          intro hss
          exact hc (by simp [hss.1, hss.2])
        | succ q =>
          rw [isSS_cons_succ]
          exact ih hr q

/-- The index reported by `lastStarSlash` is the last occurrence. -/
theorem lastStarSlash_maximal (t : List Char) :
    ∀ j, lastStarSlash t = some j → ∀ p, j < p → ¬ isSS t p := by
  induction t with
  | nil => intro j h; simp [lastStarSlash] at h
  | cons c rest ih =>
    intro j h p hp
    simp only [lastStarSlash] at h
    cases hr : lastStarSlash rest with
    | some i =>
      rw [hr] at h
      simp only [Option.some.injEq] at h
      subst h
      cases p with
      | zero => omega
      | succ q =>
        rw [isSS_cons_succ]
        exact ih i hr q (by omega)
    | none =>
      rw [hr] at h
      by_cases hc : (c = '*' && rest.head? = some '/') = true
      · rw [if_pos hc] at h
        simp only [Option.some.injEq] at h
        subst h
        cases p with
        | zero => omega
        | succ q =>
          rw [isSS_cons_succ]
          exact lastStarSlash_none_forall rest hr q
      · rw [if_neg hc] at h
        simp at h

/-- Converse characterisation: an occurrence that nothing exceeds is the one
`lastStarSlash` reports. -/
theorem lastStarSlash_eq_some_of (t : List Char) (j : Nat)
    (h1 : isSS t j) (h2 : ∀ p, j < p → ¬ isSS t p) :
    lastStarSlash t = some j := by
  cases h : lastStarSlash t with
  | none => exact absurd h1 (lastStarSlash_none_forall t h j)
  | some u =>
    have hu := lastStarSlash_isSS t u h
    rcases Nat.lt_trichotomy u j with hlt | heq | hgt
    · exact absurd h1 (lastStarSlash_maximal t u h j hlt)
    · rw [heq]
    · exact absurd hu (h2 u hgt)

/-- A list without a star-slash pair has no occurrence at any position. -/
theorem containsStarSlash_false_forall (t : List Char) :
    containsStarSlash t = false → ∀ p, ¬ isSS t p := by
  induction t with
  | nil => intro _ p; simp [isSS]
  | cons c rest ih =>
    intro h p
    simp only [containsStarSlash, Bool.or_eq_false_iff] at h
    cases p with
    | zero =>
      rw [isSS_cons_zero]
      intro hss
      have h1 := h.1
      simp [hss.1, hss.2] at h1
    | succ q =>
      rw [isSS_cons_succ]
      exact ih h.2 q

/-- Occurrences cannot overlap at adjacent positions. -/
theorem isSS_no_overlap (t : List Char) (k : Nat) (h : isSS t k) :
    ¬ isSS t (k + 1) := by
  intro h2
  have : (some '/' : Option Char) = some '*' := h.2.symm.trans h2.1
  simp at this

/-- Dropping a prefix before the last occurrence shifts it. -/
theorem lastStarSlash_drop (t : List Char) (d j : Nat)
    (h : lastStarSlash t = some j) (hd : d ≤ j) :
    lastStarSlash (t.drop d) = some (j - d) := by
  apply lastStarSlash_eq_some_of
  · rw [isSS_drop]
    have he : d + (j - d) = j := by omega
    rw [he]
    exact lastStarSlash_isSS t j h
  · intro p hp
    rw [isSS_drop]
    exact lastStarSlash_maximal t j h (d + p) (by omega)

/-! ### Characteristic equations of the comment stripper -/

/-- One unfolding step of the fuelled stripper on a two-character head. -/
theorem stripCommentsAux_cons2 (n : Nat) (c1 c2 : Char) (rest : List Char) :
    stripCommentsAux (n + 1) (c1 :: c2 :: rest) =
      if c1 = '/' && c2 = '/' then []
      else if c1 = '/' && c2 = '*' then
        match lastStarSlash rest with
        | some j => stripCommentsAux n (rest.drop (j + 2))
        | none => c1 :: stripCommentsAux n (c2 :: rest)
      else c1 :: stripCommentsAux n (c2 :: rest) := rfl

/-- Any sufficient fuel computes `stripComments`. -/
theorem stripCommentsAux_fuel (n : Nat) :
    ∀ l : List Char, l.length ≤ n → stripCommentsAux n l = stripComments l := by
  induction n using Nat.strong_induction_on with
  | _ n ih =>
    intro l hl
    cases l with
    | nil => cases n <;> rfl
    | cons c1 t =>
      cases t with
      | nil =>
        cases n with
        | zero => simp at hl
        | succ n => rfl
      | cons c2 rest =>
        cases n with
        | zero => simp at hl
        | succ n =>
          have hlen : rest.length + 2 ≤ n + 1 := by
            simpa [Nat.add_comm, Nat.add_left_comm] using hl
          have hrfl : stripComments (c1 :: c2 :: rest) =
              stripCommentsAux (rest.length + 1 + 1) (c1 :: c2 :: rest) := rfl
          rw [stripCommentsAux_cons2, hrfl, stripCommentsAux_cons2]
          split_ifs
          · rfl
          · cases hj : lastStarSlash rest with
            | some j =>
              show stripCommentsAux n (rest.drop (j + 2)) =
                stripCommentsAux (rest.length + 1) (rest.drop (j + 2))
              rw [ih n (by omega) (rest.drop (j + 2))
                  (by simp [List.length_drop]; omega),
                ih (rest.length + 1) (by omega) (rest.drop (j + 2))
                  (by simp [List.length_drop]; omega)]
            | none =>
              show c1 :: stripCommentsAux n (c2 :: rest) =
                c1 :: stripCommentsAux (rest.length + 1) (c2 :: rest)
              rw [ih n (by omega) (c2 :: rest) (by simp; omega),
                ih (rest.length + 1) (by omega) (c2 :: rest) (by simp)]
          · rw [ih n (by omega) (c2 :: rest) (by simp; omega),
              ih (rest.length + 1) (by omega) (c2 :: rest) (by simp)]

/-- Characteristic equation of `stripComments` on a two-character head. -/
theorem stripComments_cons2 (c1 c2 : Char) (rest : List Char) :
    stripComments (c1 :: c2 :: rest) =
      if c1 = '/' && c2 = '/' then []
      else if c1 = '/' && c2 = '*' then
        match lastStarSlash rest with
        | some j => stripComments (rest.drop (j + 2))
        | none => c1 :: stripComments (c2 :: rest)
      else c1 :: stripComments (c2 :: rest) := by
  have hrfl : stripComments (c1 :: c2 :: rest) =
      stripCommentsAux (rest.length + 1 + 1) (c1 :: c2 :: rest) := rfl
  rw [hrfl, stripCommentsAux_cons2]
  split_ifs
  · rfl
  · cases hj : lastStarSlash rest with
    | some j =>
      show stripCommentsAux (rest.length + 1) (rest.drop (j + 2)) =
        stripComments (rest.drop (j + 2))
      exact stripCommentsAux_fuel (rest.length + 1) (rest.drop (j + 2))
        (by simp [List.length_drop]; omega)
    | none =>
      show c1 :: stripCommentsAux (rest.length + 1) (c2 :: rest) =
        c1 :: stripComments (c2 :: rest)
      rw [stripCommentsAux_fuel (rest.length + 1) (c2 :: rest) (by simp)]
  · rw [stripCommentsAux_fuel (rest.length + 1) (c2 :: rest) (by simp)]

/-! ### Comment-only lines are stripped to whitespace -/

/-- Unfolding of the scan inside a block comment. -/
theorem bcAux_true_cons2 (strict seen : Bool) (c1 c2 : Char) (rest : List Char) :
    bcAux strict true seen (c1 :: c2 :: rest) =
      if c1 = '*' && c2 = '/' then bcAux strict false seen rest
      else bcAux strict true seen (c2 :: rest) := rfl

/-- Unfolding of the scan outside a block comment. -/
theorem bcAux_false_cons2 (strict seen : Bool) (c1 c2 : Char) (rest : List Char) :
    bcAux strict false seen (c1 :: c2 :: rest) =
      if c1 = '/' && c2 = '/' then !strict || !seen || !containsStarSlash rest
      else if c1 = '/' && c2 = '*' then bcAux strict true true rest
      else pySpace c1 && bcAux strict false seen (c2 :: rest) := rfl

/-- A successful in-block scan exits at some star-slash occurrence. -/
theorem bcAux_block_exit (strict : Bool) (t : List Char) :
    ∀ seen : Bool, bcAux strict true seen t = true →
      ∃ k, isSS t k ∧ bcAux strict false seen (t.drop (k + 2)) = true := by
  induction t with
  | nil => intro seen h; simp [bcAux] at h
  | cons c1 t ih =>
    intro seen h
    cases t with
    | nil => simp [bcAux] at h
    | cons c2 rest =>
      rw [bcAux_true_cons2] at h
      by_cases hc : (c1 = '*' && c2 = '/') = true
      · rw [if_pos hc] at h
        simp only [Bool.and_eq_true, decide_eq_true_eq] at hc
        refine ⟨0, ?_, ?_⟩
        · rw [isSS_cons_zero]
          exact ⟨hc.1, by simp [hc.2]⟩
        · exact h
      · rw [if_neg hc] at h
        obtain ⟨k, hk1, hk2⟩ := ih seen h
        refine ⟨k + 1, ?_, ?_⟩
        · rw [isSS_cons_succ]
          exact hk1
        · exact hk2

/-- In the strict class with a block comment already seen, the scan is still
in the class when restarted just after the LAST star-slash occurrence: all
occurrences beyond the first lie inside later block comments, never in
trailing line-comment text. -/
theorem bcAux_after_last (n : Nat) :
    ∀ (m : List Char), m.length ≤ n → ∀ j, bcAux true false true m = true →
      lastStarSlash m = some j →
      bcAux true false true (m.drop (j + 2)) = true := by
  induction n using Nat.strong_induction_on with
  | _ n ih =>
    intro m hm j hbc hlast
    cases m with
    | nil => simp [lastStarSlash] at hlast
    | cons c1 t =>
      cases t with
      | nil =>
        have hnone : lastStarSlash [c1] = none := by
          simp [lastStarSlash]
        rw [hnone] at hlast
        simp at hlast
      | cons c2 rest =>
        have hmlen : rest.length + 2 ≤ n := by simpa using hm
        have hjss := lastStarSlash_isSS _ j hlast
        rw [bcAux_false_cons2] at hbc
        by_cases hline : (c1 = '/' && c2 = '/') = true
        · rw [if_pos hline] at hbc
          simp only [Bool.and_eq_true, decide_eq_true_eq] at hline
          simp only [Bool.not_true, Bool.false_or] at hbc
          have hcs : containsStarSlash rest = false := by
            cases hcsv : containsStarSlash rest
            · rfl
            · rw [hcsv] at hbc; simp at hbc
          exfalso
          match j, hjss with
          | 0, hj =>
            rw [isSS_cons_zero] at hj
            rw [hline.1] at hj
            simp at hj
          | 1, hj =>
            rw [isSS_cons_succ, isSS_cons_zero] at hj
            rw [hline.2] at hj
            simp at hj
          | q + 2, hj =>
            rw [isSS_cons_succ, isSS_cons_succ] at hj
            exact containsStarSlash_false_forall rest hcs q hj
        · by_cases hblock : (c1 = '/' && c2 = '*') = true
          · rw [if_neg hline, if_pos hblock] at hbc
            obtain ⟨k, hk1, hk2⟩ := bcAux_block_exit true rest true hbc
            have hk2' : isSS (c1 :: c2 :: rest) (k + 2) := by
              rw [isSS_cons_succ, isSS_cons_succ]
              exact hk1
            have hjge : k + 2 ≤ j := by
              by_contra hlt
              exact lastStarSlash_maximal _ j hlast (k + 2) (by omega) hk2'
            have hjrest : isSS rest (j - 2) := by
              have hj2 : j = (j - 2) + 1 + 1 := by omega
              rw [hj2, isSS_cons_succ, isSS_cons_succ] at hjss
              exact hjss
            have hlrest : lastStarSlash rest = some (j - 2) := by
              apply lastStarSlash_eq_some_of
              · exact hjrest
              · intro p hp hpss
                have : isSS (c1 :: c2 :: rest) (p + 2) := by
                  rw [isSS_cons_succ, isSS_cons_succ]
                  exact hpss
                exact lastStarSlash_maximal _ j hlast (p + 2) (by omega) this
            have hgoal : bcAux true false true (rest.drop ((j - 2) + 2)) = true := by
              rcases Nat.lt_or_ge (j - 2) (k + 2) with hjk | hjk
              · -- the last occurrence is the block's own close
                have hjeq : j - 2 = k := by
                  rcases Nat.lt_trichotomy (j - 2) k with hl | he | hg
                  · exfalso
                    exact lastStarSlash_maximal rest _ hlrest k hl hk1
                  · exact he
                  · exfalso
                    have : j - 2 = k + 1 := by omega
                    rw [this] at hjrest
                    exact isSS_no_overlap rest k hk1 hjrest
                rw [hjeq]
                exact hk2
              · -- the last occurrence lies beyond the block's close
                have hmid : lastStarSlash (rest.drop (k + 2)) =
                    some ((j - 2) - (k + 2)) :=
                  lastStarSlash_drop rest (k + 2) (j - 2) hlrest hjk
                have hrec := ih (rest.drop (k + 2)).length
                  (by simp [List.length_drop]; omega)
                  (rest.drop (k + 2)) le_rfl ((j - 2) - (k + 2)) hk2 hmid
                have hdd : (rest.drop (k + 2)).drop ((j - 2) - (k + 2) + 2) =
                    rest.drop ((j - 2) + 2) := by
                  rw [List.drop_drop]
                  congr 1
                  omega
                rw [hdd] at hrec
                exact hrec
            have hj2 : j + 2 = (j - 2) + 2 + 2 := by omega
            rw [hj2]
            exact hgoal
          · rw [if_neg hline, if_neg hblock] at hbc
            simp only [Bool.and_eq_true] at hbc
            obtain ⟨hsp, hrest⟩ := hbc
            match j, hjss with
            | 0, hj =>
              exfalso
              rw [isSS_cons_zero] at hj
              rw [hj.1] at hsp
              simp [pySpace] at hsp
            | q + 1, hj =>
              rw [isSS_cons_succ] at hj
              have hlrest : lastStarSlash (c2 :: rest) = some q := by
                apply lastStarSlash_eq_some_of
                · exact hj
                · intro p hp hpss
                  have : isSS (c1 :: c2 :: rest) (p + 1) := by
                    rw [isSS_cons_succ]
                    exact hpss
                  exact lastStarSlash_maximal _ _ hlast (p + 1) (by omega) this
              exact ih (c2 :: rest).length (by simp; omega) (c2 :: rest)
                le_rfl q hrest hlrest

/-- Lines in the strict blank-or-comment class are stripped by the greedy
comment remover to pure whitespace. -/
theorem bc_strip_allspace (n : Nat) :
    ∀ (l : List Char) (seen : Bool), l.length ≤ n →
      bcAux true false seen l = true →
      (stripComments l).all pySpace = true := by
  induction n using Nat.strong_induction_on with
  | _ n ih =>
    intro l seen hl hbc
    cases l with
    | nil => rfl
    | cons c1 t =>
      cases t with
      | nil =>
        have h1 : bcAux true false seen [c1] = pySpace c1 := rfl
        rw [h1] at hbc
        have h2 : stripComments [c1] = [c1] := rfl
        rw [h2]
        simp [hbc]
      | cons c2 rest =>
        have hmlen : rest.length + 2 ≤ n := by simpa using hl
        rw [stripComments_cons2, bcAux_false_cons2] at *
        by_cases hline : (c1 = '/' && c2 = '/') = true
        · rw [if_pos hline]
          rfl
        · by_cases hblock : (c1 = '/' && c2 = '*') = true
          · rw [if_neg hline, if_pos hblock]
            rw [if_neg hline, if_pos hblock] at hbc
            obtain ⟨k, hk1, hk2⟩ := bcAux_block_exit true rest true hbc
            cases hls : lastStarSlash rest with
            | none => exact absurd hk1 (lastStarSlash_none_forall rest hls k)
            | some j =>
              show (stripComments (rest.drop (j + 2))).all pySpace = true
              have hjge : k ≤ j := by
                by_contra hlt
                exact lastStarSlash_maximal rest j hls k (by omega) hk1
              rcases Nat.lt_or_ge j (k + 2) with hjk | hjk
              · have hjeq : j = k := by
                  rcases Nat.lt_trichotomy j k with h1 | h2 | h3
                  · omega
                  · exact h2
                  · exfalso
                    have : j = k + 1 := by omega
                    rw [this] at hls
                    exact isSS_no_overlap rest k hk1
                      (lastStarSlash_isSS rest (k + 1) hls)
                rw [hjeq]
                exact ih (rest.drop (k + 2)).length
                  (by simp [List.length_drop]; omega)
                  (rest.drop (k + 2)) true le_rfl hk2
              · have hmid : lastStarSlash (rest.drop (k + 2)) =
                    some (j - (k + 2)) :=
                  lastStarSlash_drop rest (k + 2) j hls hjk
                have hrec := bcAux_after_last (rest.drop (k + 2)).length
                  (rest.drop (k + 2)) le_rfl (j - (k + 2)) hk2 hmid
                have hdd : (rest.drop (k + 2)).drop (j - (k + 2) + 2) =
                    rest.drop (j + 2) := by
                  rw [List.drop_drop]
                  congr 1
                  omega
                rw [hdd] at hrec
                exact ih (rest.drop (j + 2)).length
                  (by simp [List.length_drop]; omega)
                  (rest.drop (j + 2)) true le_rfl hrec
          · rw [if_neg hline, if_neg hblock]
            rw [if_neg hline, if_neg hblock] at hbc
            simp only [Bool.and_eq_true] at hbc
            obtain ⟨hsp, hrest⟩ := hbc
            have htail := ih (c2 :: rest).length (by simp; omega)
              (c2 :: rest) seen le_rfl hrest
            simp [List.all_cons, hsp, htail]

/-- An all-whitespace list strips (in the Python sense) to the empty list. -/
theorem pstrip_allspace (l : List Char) (h : l.all pySpace = true) :
    pstrip l = [] := by
  have h1 : l.dropWhile pySpace = [] := by
    rw [List.dropWhile_eq_nil_iff]
    intro x hx
    exact List.all_eq_true.1 h x hx
  simp [pstrip, h1]

/-- C5 counterexample: the line `/* a */ // b */ c` consists entirely of
whitespace and comment text (a closed block comment followed by a line
comment, as `blankOrComment` certifies), yet the classifier reports an
error on it: the greedy block-comment regex swallows up to the LAST
star-slash, which sits inside the line comment, leaving the residue `c`,
so the claim that every blank-or-comment-only line is valid is false. -/
theorem c5_counterexample :
    blankOrComment ("/* a */ // b */ c".toList) = true ∧
    (validateText ⟨0, false⟩ ("/* a */ // b */ c".toList)).2 =
      (some (0, 17), some expectedMsg) := by
  decide

/-- C5 amended: every line that is empty or consists of whitespace, closed
same-line block comments, and at most one trailing line comment — where a
line comment that follows a completed block comment contains no star-slash
pair — classifies as valid and leaves the whole state (in particular the
nesting level) unchanged. -/
theorem c5_blank_or_comment_valid (st : VState) (line : List Char)
    (h : blankOrCommentAmended line = true) :
    validateText st line = (st, (none, none)) := by
  have hclean : cleanOf line = [] := by
    unfold cleanOf
    apply pstrip_allspace
    exact bc_strip_allspace line.length line false le_rfl h
  have e1 := validateText_fst st line
  have e2 := validateText_snd st line
  rw [hclean] at e1 e2
  simp at e1 e2
  exact Prod.ext e1 e2

/-- Witness for C5 at a concrete comment-only line with two block comments
and a trailing line comment. -/
theorem c5_blank_or_comment_valid_witness :
    validateText ⟨4, true⟩ ("  /* a */ /* b */ // tail".toList) =
      (⟨4, true⟩, (none, none)) :=
  c5_blank_or_comment_valid ⟨4, true⟩ ("  /* a */ /* b */ // tail".toList)
    (by decide)

end AFD
